import Mathlib

/-
Shallow embedding of `pytransform/rotations.py` (rock-learning/pytransform).

Vectors of length `n` are `Fin n → ℝ`, matrices are `Matrix (Fin 3) (Fin 3) ℝ`,
and the numpy primitives used by the source (`np.linalg.norm`, `np.dot`,
`np.cross`, `np.arctan2`, `np.arccos`, `np.finfo(float).eps`) are modelled over
the exact reals.  A Python function that raises is modelled as an
`Option`-valued function returning `none` on the raising branch.
-/

noncomputable section

namespace Pytransform

open Matrix

/-- `np.linalg.norm` of a vector: the Euclidean norm. -/
def vec_norm {n : ℕ} (v : Fin n → ℝ) : ℝ := Real.sqrt (∑ i, v i ^ 2)

/-- Source `norm_vector(v)`: `v / np.linalg.norm(v)`. -/
def norm_vector {n : ℕ} (v : Fin n → ℝ) : Fin n → ℝ := fun i => v i / vec_norm v

/-- `np.dot` of two vectors. -/
def np_dot {n : ℕ} (a b : Fin n → ℝ) : ℝ := ∑ i, a i * b i

/-- `np.cross` of two 3d vectors. -/
def np_cross (a b : Fin 3 → ℝ) : Fin 3 → ℝ :=
  ![a 1 * b 2 - a 2 * b 1, a 2 * b 0 - a 0 * b 2, a 0 * b 1 - a 1 * b 0]

/-- `np.arctan2 y x`, i.e. the argument of the complex number `x + y·i`
(range `(-π, π]`, `arctan2 0 0 = 0`, exactly as numpy). -/
def np_arctan2 (y x : ℝ) : ℝ := Complex.arg ⟨x, y⟩

/-- `np.finfo(float).eps = 2⁻⁵²`. -/
def float_eps : ℝ := (2 : ℝ) ^ (-52 : ℤ)

/-- Source `angle_between_vectors(a, b, fast)`: the stable `atan2`-based path is
taken when the vectors are 3d and `fast` is false, otherwise the
`arccos`-based fast path. -/
def angle_between_vectors {n : ℕ} (a b : Fin n → ℝ) (fast : Bool) : ℝ :=
  if h : n = 3 ∧ fast = false then
    np_arctan2
      (vec_norm (np_cross (fun i => a (Fin.cast h.1.symm i))
        (fun i => b (Fin.cast h.1.symm i))))
      (np_dot a b)
  else
    Real.arccos (np_dot a b / (vec_norm a * vec_norm b))

/-- Source `cross_product_matrix(v)`. -/
def cross_product_matrix (v : Fin 3 → ℝ) : Matrix (Fin 3) (Fin 3) ℝ :=
  !![0, -v 2, v 1;
     v 2, 0, -v 0;
     -v 1, v 0, 0]

/-- Source `matrix_from_axis_angle(a)` (Rodrigues' formula), entry by entry. -/
def matrix_from_axis_angle (a : Fin 4 → ℝ) : Matrix (Fin 3) (Fin 3) ℝ :=
  let e := norm_vector ![a 0, a 1, a 2]
  let theta := a 3
  let ux := e 0
  let uy := e 1
  let uz := e 2
  let c := Real.cos theta
  let s := Real.sin theta
  let ci := 1 - c
  !![ci * ux * ux + c, ci * ux * uy - uz * s, ci * ux * uz + uy * s;
     ci * uy * ux + uz * s, ci * uy * uy + c, ci * uy * uz - ux * s;
     ci * uz * ux - uy * s, ci * uz * uy + ux * s, ci * uz * uz + c]

/-- Source `matrix_from_quaternion(q)`: the quaternion is normalized first. -/
def matrix_from_quaternion (q : Fin 4 → ℝ) : Matrix (Fin 3) (Fin 3) ℝ :=
  let uq := norm_vector q
  let w := uq 0
  let x := uq 1
  let y := uq 2
  let z := uq 3
  let x2 := 2 * x * x
  let y2 := 2 * y * y
  let z2 := 2 * z * z
  let xy := 2 * x * y
  let xz := 2 * x * z
  let yz := 2 * y * z
  let xw := 2 * x * w
  let yw := 2 * y * w
  let zw := 2 * z * w
  !![1 - y2 - z2, xy - zw, xz + yw;
     xy + zw, 1 - x2 - z2, yz - xw;
     xz - yw, yz + xw, 1 - x2 - y2]

/-- Source `matrix_from_angle(basis, angle)`.  The basis index is `Fin 3`
(the source raises `ValueError` on any other index; that branch is
unreachable for the in-repository callers, which pass only 0, 1, 2). -/
def matrix_from_angle (basis : Fin 3) (angle : ℝ) : Matrix (Fin 3) (Fin 3) ℝ :=
  let c := Real.cos angle
  let s := Real.sin angle
  if basis = 0 then
    !![1, 0, 0;
       0, c, -s;
       0, s, c]
  else if basis = 1 then
    !![c, 0, s;
       0, 1, 0;
       -s, 0, c]
  else
    !![c, -s, 0;
       s, c, 0;
       0, 0, 1]

/-- Source `matrix_from_euler_xyz(e)`: `Qx·Qy·Qz` with angles in index order. -/
def matrix_from_euler_xyz (e : Fin 3 → ℝ) : Matrix (Fin 3) (Fin 3) ℝ :=
  let alpha := e 0
  let beta := e 1
  let gamma := e 2
  matrix_from_angle 0 alpha * matrix_from_angle 1 beta * matrix_from_angle 2 gamma

/-- Source `matrix_from_euler_zyx(e)`: the triple is unpacked as
`gamma, beta, alpha = e` and the result is `Qz·Qy·Qx`. -/
def matrix_from_euler_zyx (e : Fin 3 → ℝ) : Matrix (Fin 3) (Fin 3) ℝ :=
  let gamma := e 0
  let beta := e 1
  let alpha := e 2
  matrix_from_angle 2 gamma * matrix_from_angle 1 beta * matrix_from_angle 0 alpha

/-- Source `axis_angle_from_matrix(R)` (logarithmic map).  `none` models the
raised exception when the computed angle is `≥ π`. -/
def axis_angle_from_matrix (R : Matrix (Fin 3) (Fin 3) ℝ) : Option (Fin 4 → ℝ) :=
  if R = 1 then some ![0, 0, 0, 0]
  else
    let angle := Real.arccos ((Matrix.trace R - 1) / 2)
    let r := ![R 2 1 - R 1 2, R 0 2 - R 2 0, R 1 0 - R 0 1]
    if angle ≥ Real.pi then none
    else some ![r 0 / (2 * Real.sin angle), r 1 / (2 * Real.sin angle),
                r 2 / (2 * Real.sin angle), angle]

/-- Source `axis_angle_from_quaternion(q)`. -/
def axis_angle_from_quaternion (q : Fin 4 → ℝ) : Fin 4 → ℝ :=
  let p := ![q 1, q 2, q 3]
  let p_norm := vec_norm p
  if p_norm < float_eps then ![1, 0, 0, 0]
  else
    let angle := 2 * Real.arccos (q 0)
    ![p 0 / p_norm, p 1 / p_norm, p 2 / p_norm, angle]

/-- Source `quaternion_from_matrix(R)`. -/
def quaternion_from_matrix (R : Matrix (Fin 3) (Fin 3) ℝ) : Fin 4 → ℝ :=
  let q0 := 0.5 * Real.sqrt (1 + Matrix.trace R)
  ![q0,
    0.25 / q0 * (R 2 1 - R 1 2),
    0.25 / q0 * (R 0 2 - R 2 0),
    0.25 / q0 * (R 1 0 - R 0 1)]

/-- Source `concatenate_quaternions(q1, q2)` (Hamilton product). -/
def concatenate_quaternions (q1 q2 : Fin 4 → ℝ) : Fin 4 → ℝ :=
  let v1 : Fin 3 → ℝ := ![q1 1, q1 2, q1 3]
  let v2 : Fin 3 → ℝ := ![q2 1, q2 2, q2 3]
  let cr := np_cross v1 v2
  ![q1 0 * q2 0 - np_dot v1 v2,
    q1 0 * v2 0 + q2 0 * v1 0 + cr 0,
    q1 0 * v2 1 + q2 0 * v1 1 + cr 1,
    q1 0 * v2 2 + q2 0 * v1 2 + cr 2]

/-- Source `q_prod_vector(q, v)`: `t = 2·(q[1:] × v)`, result
`v + w·t + q[1:] × t`. -/
def q_prod_vector (q : Fin 4 → ℝ) (v : Fin 3 → ℝ) : Fin 3 → ℝ :=
  let qv : Fin 3 → ℝ := ![q 1, q 2, q 3]
  let t := fun i => 2 * np_cross qv v i
  fun i => v i + q 0 * t i + np_cross qv t i

/-- Source `axis_angle_slerp(start, end, t)`: sine weights on the axis
components, linear weights on the angle component. -/
def axis_angle_slerp (start goal : Fin 4 → ℝ) (t : ℝ) : Fin 4 → ℝ :=
  let omega := angle_between_vectors ![start 0, start 1, start 2]
    ![goal 0, goal 1, goal 2] false
  let w1 := Real.sin ((1 - t) * omega) / Real.sin omega
  let w2 := Real.sin (t * omega) / Real.sin omega
  ![w1 * start 0 + w2 * goal 0,
    w1 * start 1 + w2 * goal 1,
    w1 * start 2 + w2 * goal 2,
    (1 - t) * start 3 + t * goal 3]

/-- Source `quaternion_slerp(start, end, t)`: sine weights on all four
components (`angle_between_vectors` takes the `arccos` path since the
inputs are 4d). -/
def quaternion_slerp (start goal : Fin 4 → ℝ) (t : ℝ) : Fin 4 → ℝ :=
  let omega := angle_between_vectors start goal false
  let w1 := Real.sin ((1 - t) * omega) / Real.sin omega
  let w2 := Real.sin (t * omega) / Real.sin omega
  fun i => w1 * start i + w2 * goal i

/-- Elementwise criterion of `numpy.testing.assert_array_almost_equal`:
`|desired - actual| < 1.5 · 10^(-decimal)`. -/
def almost_equal (actual desired : ℝ) (decimal : ℕ) : Prop :=
  |desired - actual| < 1.5 * (10 : ℝ) ^ (-(decimal : ℤ))

/-- Source `assert_rotation_matrix(R, *args, **kwargs)`.  Note: the source
does NOT forward `*args`/`**kwargs` to `assert_array_almost_equal`, so both
comparisons always run at the numpy default `decimal=6`; the `decimal`
parameter received here is ignored exactly as in the source. -/
def assert_rotation_matrix (R : Matrix (Fin 3) (Fin 3) ℝ) (decimal : ℕ) : Prop :=
  (∀ i j, almost_equal ((R * Rᵀ) i j) ((1 : Matrix (Fin 3) (Fin 3) ℝ) i j) 6) ∧
  almost_equal R.det 1 6

/-- Modelled from the spec (for comparison with `assert_rotation_matrix`):
"passes iff `R·Rᵗ ≈ I` and `det(R) ≈ 1`, both within tolerance", where the
caller-supplied tolerance controls both comparisons. -/
def assert_rotation_matrix_spec (R : Matrix (Fin 3) (Fin 3) ℝ) (decimal : ℕ) : Prop :=
  (∀ i j, almost_equal ((R * Rᵀ) i j) ((1 : Matrix (Fin 3) (Fin 3) ℝ) i j) decimal) ∧
  almost_equal R.det 1 decimal

/-- The matrix form of Rodrigues' formula, as stated in the spec and in the
comment at the end of the source `matrix_from_axis_angle`:
`R = I·cosθ + (1-cosθ)·e eᵗ + sinθ·[e]ₓ` with `e` the normalized axis. -/
def rodrigues_matrix_form (a : Fin 4 → ℝ) : Matrix (Fin 3) (Fin 3) ℝ :=
  let e := norm_vector ![a 0, a 1, a 2]
  Real.cos (a 3) • (1 : Matrix (Fin 3) (Fin 3) ℝ) +
    (1 - Real.cos (a 3)) • Matrix.vecMulVec e e +
    Real.sin (a 3) • cross_product_matrix e

/-! ### Helper lemmas -/

lemma transpose_fin_three (m00 m01 m02 m10 m11 m12 m20 m21 m22 : ℝ) :
    (!![m00, m01, m02; m10, m11, m12; m20, m21, m22])ᵀ =
      !![m00, m10, m20; m01, m11, m21; m02, m12, m22] := by
  ext i j
  fin_cases i <;> fin_cases j <;> rfl

lemma sum_sq_pos_of_ne_zero {n : ℕ} (v : Fin n → ℝ) (hv : v ≠ 0) :
    0 < ∑ i, v i ^ 2 := by
  obtain ⟨i, hi⟩ : ∃ i, v i ≠ 0 := by
    by_contra h
    push_neg at h
    exact hv (funext h)
  exact Finset.sum_pos' (fun j _ => sq_nonneg (v j))
    ⟨i, Finset.mem_univ i, by positivity⟩

lemma vec_norm_pos {n : ℕ} (v : Fin n → ℝ) (hv : v ≠ 0) : 0 < vec_norm v :=
  Real.sqrt_pos.mpr (sum_sq_pos_of_ne_zero v hv)

lemma sum_sq_norm_vector {n : ℕ} (v : Fin n → ℝ) (hv : v ≠ 0) :
    ∑ i, norm_vector v i ^ 2 = 1 := by
  have h0 := sum_sq_pos_of_ne_zero v hv
  have hs : vec_norm v ^ 2 = ∑ i, v i ^ 2 := Real.sq_sqrt h0.le
  have : ∑ i, norm_vector v i ^ 2 = (∑ i, v i ^ 2) / vec_norm v ^ 2 := by
    simp only [norm_vector, div_pow, Finset.sum_div]
  rw [this, hs, div_self h0.ne.symm]

lemma sum_sq_of_vec_norm_one {n : ℕ} (v : Fin n → ℝ) (hv : vec_norm v = 1) :
    ∑ i, v i ^ 2 = 1 := by
  have h0 : (0:ℝ) ≤ ∑ i, v i ^ 2 := Finset.sum_nonneg fun i _ => sq_nonneg (v i)
  have := Real.sq_sqrt h0
  rw [← vec_norm, hv] at this
  simpa using this.symm

lemma norm_vector_of_norm_one {n : ℕ} (v : Fin n → ℝ) (hv : vec_norm v = 1) :
    norm_vector v = v := by
  funext i
  simp [norm_vector, hv]

lemma rodrigues_mul_transpose (ux uy uz c s : ℝ)
    (hu : ux^2 + uy^2 + uz^2 = 1) (hc : c^2 + s^2 = 1) :
    !![(1-c)*ux*ux + c, (1-c)*ux*uy - uz*s, (1-c)*ux*uz + uy*s;
       (1-c)*uy*ux + uz*s, (1-c)*uy*uy + c, (1-c)*uy*uz - ux*s;
       (1-c)*uz*ux - uy*s, (1-c)*uz*uy + ux*s, (1-c)*uz*uz + c] *
    !![(1-c)*ux*ux + c, (1-c)*uy*ux + uz*s, (1-c)*uz*ux - uy*s;
       (1-c)*ux*uy - uz*s, (1-c)*uy*uy + c, (1-c)*uz*uy + ux*s;
       (1-c)*ux*uz + uy*s, (1-c)*uy*uz - ux*s, (1-c)*uz*uz + c] = 1 := by
  rw [Matrix.mul_fin_three, Matrix.one_fin_three]
  ext i j
  fin_cases i <;> fin_cases j <;> simp [Matrix.vecHead, Matrix.vecTail] <;>
    first
      | linear_combination (ux^2*c^2 - 2*ux^2*c + ux^2 - c^2 + 1) * hu + (uy^2 + uz^2) * hc
      | linear_combination (uy^2*c^2 - 2*uy^2*c + uy^2 + s^2) * hu + (1 - uy^2) * hc
      | linear_combination (uz^2*c^2 - 2*uz^2*c + uz^2 + s^2) * hu + (1 - uz^2) * hc
      | linear_combination (ux*uy*c^2 - 2*ux*uy*c + ux*uy) * hu + (-(ux*uy)) * hc
      | linear_combination (ux*uz*c^2 - 2*ux*uz*c + ux*uz) * hu + (-(ux*uz)) * hc
      | linear_combination (uy*uz*c^2 - 2*uy*uz*c + uy*uz) * hu + (-(uy*uz)) * hc

lemma rodrigues_det (ux uy uz c s : ℝ)
    (hu : ux^2 + uy^2 + uz^2 = 1) (hc : c^2 + s^2 = 1) :
    Matrix.det !![(1-c)*ux*ux + c, (1-c)*ux*uy - uz*s, (1-c)*ux*uz + uy*s;
       (1-c)*uy*ux + uz*s, (1-c)*uy*uy + c, (1-c)*uy*uz - ux*s;
       (1-c)*uz*ux - uy*s, (1-c)*uz*uy + ux*s, (1-c)*uz*uz + c] = 1 := by
  rw [Matrix.det_fin_three]
  simp [Matrix.vecHead, Matrix.vecTail]
  linear_combination (-(ux^2*c*s^2) + ux^2*s^2 - uy^2*c*s^2 + uy^2*s^2 - uz^2*c*s^2
    + uz^2*s^2 - c^3 + c^2 + s^2) * hu + hc

lemma quat_mul_transpose (w x y z : ℝ) (hn : w^2 + x^2 + y^2 + z^2 = 1) :
    !![1 - 2*y*y - 2*z*z, 2*x*y - 2*z*w, 2*x*z + 2*y*w;
       2*x*y + 2*z*w, 1 - 2*x*x - 2*z*z, 2*y*z - 2*x*w;
       2*x*z - 2*y*w, 2*y*z + 2*x*w, 1 - 2*x*x - 2*y*y] *
    !![1 - 2*y*y - 2*z*z, 2*x*y + 2*z*w, 2*x*z - 2*y*w;
       2*x*y - 2*z*w, 1 - 2*x*x - 2*z*z, 2*y*z + 2*x*w;
       2*x*z + 2*y*w, 2*y*z - 2*x*w, 1 - 2*x*x - 2*y*y] = 1 := by
  rw [Matrix.mul_fin_three, Matrix.one_fin_three]
  ext i j
  fin_cases i <;> fin_cases j <;> simp [Matrix.vecHead, Matrix.vecTail] <;>
    first
      | linear_combination (4*y^2 + 4*z^2) * hn
      | linear_combination (4*x^2 + 4*z^2) * hn
      | linear_combination (4*x^2 + 4*y^2) * hn
      | linear_combination (-(4*x*y)) * hn
      | linear_combination (-(4*x*z)) * hn
      | linear_combination (-(4*y*z)) * hn

lemma quat_det (w x y z : ℝ) (hn : w^2 + x^2 + y^2 + z^2 = 1) :
    Matrix.det !![1 - 2*y*y - 2*z*z, 2*x*y - 2*z*w, 2*x*z + 2*y*w;
       2*x*y + 2*z*w, 1 - 2*x*x - 2*z*z, 2*y*z - 2*x*w;
       2*x*z - 2*y*w, 2*y*z + 2*x*w, 1 - 2*x*x - 2*y*y] = 1 := by
  rw [Matrix.det_fin_three]
  simp [Matrix.vecHead, Matrix.vecTail]
  linear_combination (4*x^2 + 4*y^2 + 4*z^2) * hn

lemma matrix_from_angle_mul_transpose (b : Fin 3) (theta : ℝ) :
    matrix_from_angle b theta * (matrix_from_angle b theta)ᵀ = 1 := by
  have hc := Real.cos_sq_add_sin_sq theta
  fin_cases b
  · show matrix_from_angle 0 theta * (matrix_from_angle 0 theta)ᵀ = 1
    rw [show matrix_from_angle 0 theta =
        !![1, 0, 0; 0, Real.cos theta, -Real.sin theta;
           0, Real.sin theta, Real.cos theta] from rfl, transpose_fin_three,
      Matrix.mul_fin_three, Matrix.one_fin_three]
    ext i j
    fin_cases i <;> fin_cases j <;> simp [Matrix.vecHead, Matrix.vecTail] <;>
      first
        | ring1
        | linear_combination hc
  · show matrix_from_angle 1 theta * (matrix_from_angle 1 theta)ᵀ = 1
    rw [show matrix_from_angle 1 theta =
        !![Real.cos theta, 0, Real.sin theta; 0, 1, 0;
           -Real.sin theta, 0, Real.cos theta] from rfl, transpose_fin_three,
      Matrix.mul_fin_three, Matrix.one_fin_three]
    ext i j
    fin_cases i <;> fin_cases j <;> simp [Matrix.vecHead, Matrix.vecTail] <;>
      first
        | ring1
        | linear_combination hc
  · show matrix_from_angle 2 theta * (matrix_from_angle 2 theta)ᵀ = 1
    rw [show matrix_from_angle 2 theta =
        !![Real.cos theta, -Real.sin theta, 0; Real.sin theta, Real.cos theta, 0;
           0, 0, 1] from rfl, transpose_fin_three,
      Matrix.mul_fin_three, Matrix.one_fin_three]
    ext i j
    fin_cases i <;> fin_cases j <;> simp [Matrix.vecHead, Matrix.vecTail] <;>
      first
        | ring1
        | linear_combination hc

lemma matrix_from_angle_det (b : Fin 3) (theta : ℝ) :
    (matrix_from_angle b theta).det = 1 := by
  have hc := Real.cos_sq_add_sin_sq theta
  fin_cases b
  · show (matrix_from_angle 0 theta).det = 1
    rw [show matrix_from_angle 0 theta =
        !![1, 0, 0; 0, Real.cos theta, -Real.sin theta;
           0, Real.sin theta, Real.cos theta] from rfl, Matrix.det_fin_three]
    simp [Matrix.vecHead, Matrix.vecTail]
    linear_combination hc
  · show (matrix_from_angle 1 theta).det = 1
    rw [show matrix_from_angle 1 theta =
        !![Real.cos theta, 0, Real.sin theta; 0, 1, 0;
           -Real.sin theta, 0, Real.cos theta] from rfl, Matrix.det_fin_three]
    simp [Matrix.vecHead, Matrix.vecTail]
    linear_combination hc
  · show (matrix_from_angle 2 theta).det = 1
    rw [show matrix_from_angle 2 theta =
        !![Real.cos theta, -Real.sin theta, 0; Real.sin theta, Real.cos theta, 0;
           0, 0, 1] from rfl, Matrix.det_fin_three]
    simp [Matrix.vecHead, Matrix.vecTail]
    linear_combination hc

lemma mul_mul_transpose_eq_one {A B : Matrix (Fin 3) (Fin 3) ℝ}
    (hA : A * Aᵀ = 1) (hB : B * Bᵀ = 1) : (A * B) * (A * B)ᵀ = 1 := by
  rw [Matrix.transpose_mul, Matrix.mul_assoc, ← Matrix.mul_assoc B, hB,
    Matrix.one_mul, hA]

/-! ### Claim theorems -/

/-- C7: for every axis-angle input with nonzero axis, the matrix built entry by
entry by `matrix_from_axis_angle` equals the matrix-form expression
`I·cosθ + (1-cosθ)·e eᵗ + sinθ·[e]ₓ` with `e` the normalized axis. -/
theorem matrix_from_axis_angle_eq_matrix_form (a : Fin 4 → ℝ)
    (ha : ![a 0, a 1, a 2] ≠ 0) :
    matrix_from_axis_angle a = rodrigues_matrix_form a := by
  simp only [matrix_from_axis_angle, rodrigues_matrix_form]
  ext i j
  fin_cases i <;> fin_cases j <;>
    simp [cross_product_matrix, Matrix.vecMulVec_apply, Matrix.one_apply,
      Matrix.vecHead, Matrix.vecTail] <;> ring

/-- Witness for C7 at the concrete axis-angle `(1, 0, 0, 2)`. -/
theorem matrix_from_axis_angle_eq_matrix_form_witness :
    matrix_from_axis_angle ![1, 0, 0, 2] = rodrigues_matrix_form ![1, 0, 0, 2] :=
  matrix_from_axis_angle_eq_matrix_form ![1, 0, 0, 2] (by
    intro hcontra
    have h0 := congrFun hcontra 0
    norm_num at h0)

/-- C8: `matrix_from_euler_zyx` reads the first triple component as the z angle
and the last as the x angle, returning `Rz(e₀)·Ry(e₁)·Rx(e₂)`, whereas
`matrix_from_euler_xyz` returns `Rx(e₀)·Ry(e₁)·Rz(e₂)` in index order
(elementary rotations written out explicitly). -/
theorem euler_convention_orders (e : Fin 3 → ℝ) :
    matrix_from_euler_zyx e =
      !![Real.cos (e 0), -Real.sin (e 0), 0;
         Real.sin (e 0), Real.cos (e 0), 0;
         0, 0, 1] *
      !![Real.cos (e 1), 0, Real.sin (e 1);
         0, 1, 0;
         -Real.sin (e 1), 0, Real.cos (e 1)] *
      !![1, 0, 0;
         0, Real.cos (e 2), -Real.sin (e 2);
         0, Real.sin (e 2), Real.cos (e 2)] ∧
    matrix_from_euler_xyz e =
      !![1, 0, 0;
         0, Real.cos (e 0), -Real.sin (e 0);
         0, Real.sin (e 0), Real.cos (e 0)] *
      !![Real.cos (e 1), 0, Real.sin (e 1);
         0, 1, 0;
         -Real.sin (e 1), 0, Real.cos (e 1)] *
      !![Real.cos (e 2), -Real.sin (e 2), 0;
         Real.sin (e 2), Real.cos (e 2), 0;
         0, 0, 1] :=
  ⟨rfl, rfl⟩

/-- C4: the matrices produced by `matrix_from_axis_angle` (nonzero axis),
`matrix_from_quaternion` (nonzero quaternion), `matrix_from_euler_xyz` and
`matrix_from_euler_zyx` (all triples) satisfy `R·Rᵀ = I` and `det R = 1`
in exact arithmetic. -/
theorem matrix_outputs_are_rotations :
    (∀ a : Fin 4 → ℝ, ![a 0, a 1, a 2] ≠ 0 →
      matrix_from_axis_angle a * (matrix_from_axis_angle a)ᵀ = 1 ∧
        (matrix_from_axis_angle a).det = 1) ∧
    (∀ q : Fin 4 → ℝ, q ≠ 0 →
      matrix_from_quaternion q * (matrix_from_quaternion q)ᵀ = 1 ∧
        (matrix_from_quaternion q).det = 1) ∧
    (∀ e : Fin 3 → ℝ,
      matrix_from_euler_xyz e * (matrix_from_euler_xyz e)ᵀ = 1 ∧
        (matrix_from_euler_xyz e).det = 1) ∧
    (∀ e : Fin 3 → ℝ,
      matrix_from_euler_zyx e * (matrix_from_euler_zyx e)ᵀ = 1 ∧
        (matrix_from_euler_zyx e).det = 1) := by
  refine ⟨fun a ha => ⟨?_, ?_⟩, fun q hq => ⟨?_, ?_⟩, fun e => ⟨?_, ?_⟩,
    fun e => ⟨?_, ?_⟩⟩
  · have hu : norm_vector ![a 0, a 1, a 2] 0 ^ 2 + norm_vector ![a 0, a 1, a 2] 1 ^ 2 +
        norm_vector ![a 0, a 1, a 2] 2 ^ 2 = 1 := by
      have h := sum_sq_norm_vector ![a 0, a 1, a 2] ha
      rwa [Fin.sum_univ_three] at h
    simp only [matrix_from_axis_angle]
    rw [transpose_fin_three]
    exact rodrigues_mul_transpose _ _ _ _ _ hu (Real.cos_sq_add_sin_sq (a 3))
  · have hu : norm_vector ![a 0, a 1, a 2] 0 ^ 2 + norm_vector ![a 0, a 1, a 2] 1 ^ 2 +
        norm_vector ![a 0, a 1, a 2] 2 ^ 2 = 1 := by
      have h := sum_sq_norm_vector ![a 0, a 1, a 2] ha
      rwa [Fin.sum_univ_three] at h
    simp only [matrix_from_axis_angle]
    exact rodrigues_det _ _ _ _ _ hu (Real.cos_sq_add_sin_sq (a 3))
  · have hn : norm_vector q 0 ^ 2 + norm_vector q 1 ^ 2 + norm_vector q 2 ^ 2 +
        norm_vector q 3 ^ 2 = 1 := by
      have h := sum_sq_norm_vector q hq
      rwa [Fin.sum_univ_four] at h
    simp only [matrix_from_quaternion]
    rw [transpose_fin_three]
    exact quat_mul_transpose _ _ _ _ hn
  · have hn : norm_vector q 0 ^ 2 + norm_vector q 1 ^ 2 + norm_vector q 2 ^ 2 +
        norm_vector q 3 ^ 2 = 1 := by
      have h := sum_sq_norm_vector q hq
      rwa [Fin.sum_univ_four] at h
    simp only [matrix_from_quaternion]
    exact quat_det _ _ _ _ hn
  · simp only [matrix_from_euler_xyz]
    exact mul_mul_transpose_eq_one
      (mul_mul_transpose_eq_one (matrix_from_angle_mul_transpose _ _)
        (matrix_from_angle_mul_transpose _ _))
      (matrix_from_angle_mul_transpose _ _)
  · simp only [matrix_from_euler_xyz, Matrix.det_mul, matrix_from_angle_det, mul_one]
  · simp only [matrix_from_euler_zyx]
    exact mul_mul_transpose_eq_one
      (mul_mul_transpose_eq_one (matrix_from_angle_mul_transpose _ _)
        (matrix_from_angle_mul_transpose _ _))
      (matrix_from_angle_mul_transpose _ _)
  · simp only [matrix_from_euler_zyx, Matrix.det_mul, matrix_from_angle_det, mul_one]

/-- Witness for C4 at the concrete axis-angle `(1,0,0,0)` and quaternion
`(1,0,0,0)`. -/
theorem matrix_outputs_are_rotations_witness :
    matrix_from_axis_angle ![1, 0, 0, 0] * (matrix_from_axis_angle ![1, 0, 0, 0])ᵀ = 1 ∧
    matrix_from_quaternion ![1, 0, 0, 0] * (matrix_from_quaternion ![1, 0, 0, 0])ᵀ = 1 := by
  constructor
  · exact (matrix_outputs_are_rotations.1 ![1, 0, 0, 0] (by
      intro hcontra
      have h0 := congrFun hcontra 0
      norm_num at h0)).1
  · exact (matrix_outputs_are_rotations.2.1 ![1, 0, 0, 0] (by
      intro hcontra
      have h0 := congrFun hcontra 0
      norm_num at h0)).1

/-- C1: `axis_angle_from_matrix` returns the zero axis-angle exactly on the
identity matrix; otherwise it computes `angle = arccos((trace R - 1)/2)`,
fails (returns `none`, modelling the raised exception) iff that angle reaches
or exceeds `π`, and otherwise returns an axis-angle whose angle component is
that `arccos` value, lying in `[0, π)`. -/
theorem axis_angle_from_matrix_spec_thm (R : Matrix (Fin 3) (Fin 3) ℝ) :
    (R = 1 → axis_angle_from_matrix R = some ![0, 0, 0, 0]) ∧
    (R ≠ 1 →
      ((axis_angle_from_matrix R = none ↔
          Real.pi ≤ Real.arccos ((Matrix.trace R - 1) / 2)) ∧
        ∀ b, axis_angle_from_matrix R = some b →
          b 3 = Real.arccos ((Matrix.trace R - 1) / 2) ∧
          0 ≤ b 3 ∧ b 3 < Real.pi)) := by
  constructor
  · intro h
    simp [axis_angle_from_matrix, h]
  · intro h
    by_cases hge : Real.pi ≤ Real.arccos ((Matrix.trace R - 1) / 2)
    · refine ⟨⟨fun _ => hge, fun _ => ?_⟩, fun b hb => ?_⟩
      · simp [axis_angle_from_matrix, h, hge]
      · simp [axis_angle_from_matrix, h, hge] at hb
    · refine ⟨⟨fun hnone => ?_, fun hge2 => absurd hge2 hge⟩, fun b hb => ?_⟩
      · simp [axis_angle_from_matrix, h, hge] at hnone
      · have hb3 : b 3 = Real.arccos ((Matrix.trace R - 1) / 2) := by
          simp [axis_angle_from_matrix, h, hge] at hb
          subst hb
          simp
        exact ⟨hb3, hb3 ▸ Real.arccos_nonneg _, hb3 ▸ not_le.mp hge⟩

/-- Witness for C1: the identity matrix maps to the zero axis-angle, and the
180° rotation about the x axis (angle exactly `π`) raises. -/
theorem axis_angle_from_matrix_spec_witness :
    axis_angle_from_matrix 1 = some ![0, 0, 0, 0] ∧
    axis_angle_from_matrix !![1, 0, 0; 0, -1, 0; 0, 0, -1] = none := by
  constructor
  · exact (axis_angle_from_matrix_spec_thm 1).1 rfl
  · have hne : (!![1, 0, 0; 0, -1, 0; 0, 0, -1] : Matrix (Fin 3) (Fin 3) ℝ) ≠ 1 := by
      intro hcontra
      have h11 := congrFun (congrFun hcontra 1) 1
      norm_num [Matrix.one_apply] at h11
    have htr : Matrix.trace (!![1, 0, 0; 0, -1, 0; 0, 0, -1] :
        Matrix (Fin 3) (Fin 3) ℝ) = -1 := by
      rw [Matrix.trace_fin_three]
      norm_num
    refine ((axis_angle_from_matrix_spec_thm _).2 hne).1.mpr ?_
    rw [htr]
    norm_num [Real.arccos_neg_one]

/-- C2 (code bug): on the unit quaternion `(0, 1, 0, 0)` — a 180° rotation
about the x axis — `axis_angle_from_quaternion` returns the axis-angle
`(1, 0, 0, π)`, whose angle component is NOT in the canonical range `[0, π)`
claimed by the spec and by the function's own docstring. -/
theorem axis_angle_from_quaternion_angle_reaches_pi :
    axis_angle_from_quaternion ![0, 1, 0, 0] = ![1, 0, 0, Real.pi] ∧
    ¬ (axis_angle_from_quaternion ![0, 1, 0, 0]) 3 < Real.pi := by
  have heval : axis_angle_from_quaternion ![0, 1, 0, 0] = ![1, 0, 0, Real.pi] := by
    funext i
    fin_cases i <;>
      norm_num [axis_angle_from_quaternion, vec_norm, Fin.sum_univ_three,
        float_eps, Real.arccos_zero] <;> ring
  refine ⟨heval, ?_⟩
  rw [heval]
  simp

/-- C3 (code bug): `assert_rotation_matrix` ignores the caller-supplied
tolerance.  On `R = diag(1.1, 1, 1)` with the loose tolerance `decimal = 0`
the spec predicate (tolerance forwarded) passes, but the code predicate
(tolerance dropped, default `decimal = 6` used) fails. -/
theorem assert_rotation_matrix_ignores_tolerance :
    assert_rotation_matrix_spec !![1.1, 0, 0; 0, 1, 0; 0, 0, 1] 0 ∧
    ¬ assert_rotation_matrix !![1.1, 0, 0; 0, 1, 0; 0, 0, 1] 0 := by
  have hRRt : (!![(1.1:ℝ), 0, 0; 0, 1, 0; 0, 0, 1]) *
      (!![(1.1:ℝ), 0, 0; 0, 1, 0; 0, 0, 1])ᵀ = !![1.21, 0, 0; 0, 1, 0; 0, 0, 1] := by
    rw [transpose_fin_three, Matrix.mul_fin_three]
    ext i j
    fin_cases i <;> fin_cases j <;> norm_num [Matrix.vecHead, Matrix.vecTail]
  have hdet : (!![(1.1:ℝ), 0, 0; 0, 1, 0; 0, 0, 1]).det = 1.1 := by
    rw [Matrix.det_fin_three]
    norm_num
  constructor
  · simp only [assert_rotation_matrix_spec]
    constructor
    · intro i j
      rw [hRRt]
      fin_cases i <;> fin_cases j <;>
        norm_num [almost_equal, Matrix.one_apply, Matrix.vecHead, Matrix.vecTail,
          Fin.ext_iff, abs_lt]
    · rw [hdet]
      norm_num [almost_equal, abs_lt]
  · intro hcode
    simp only [assert_rotation_matrix] at hcode
    obtain ⟨h1, -⟩ := hcode
    have h := h1 0 0
    rw [hRRt] at h
    norm_num [almost_equal, Matrix.one_apply, abs_lt] at h

/-- C10: the Euclidean norm of the Hamilton product equals the product of the
norms (Euler's four-square identity); in particular the product of two unit
quaternions is a unit quaternion. -/
theorem concatenate_quaternions_norm_product (q1 q2 : Fin 4 → ℝ) :
    vec_norm (concatenate_quaternions q1 q2) = vec_norm q1 * vec_norm q2 ∧
    (vec_norm q1 = 1 → vec_norm q2 = 1 →
      vec_norm (concatenate_quaternions q1 q2) = 1) := by
  have hsum : ∑ i, concatenate_quaternions q1 q2 i ^ 2 =
      (∑ i, q1 i ^ 2) * (∑ i, q2 i ^ 2) := by
    simp [concatenate_quaternions, np_dot, np_cross, Fin.sum_univ_four,
      Fin.sum_univ_three, Matrix.vecHead, Matrix.vecTail]
    ring
  have hmain : vec_norm (concatenate_quaternions q1 q2) =
      vec_norm q1 * vec_norm q2 := by
    rw [vec_norm, vec_norm, vec_norm, hsum,
      Real.sqrt_mul (Finset.sum_nonneg fun i _ => sq_nonneg (q1 i))]
  exact ⟨hmain, fun h1 h2 => by rw [hmain, h1, h2, one_mul]⟩

/-- Witness for C10 at the unit quaternions `(1,0,0,0)`, `(1,0,0,0)`. -/
theorem concatenate_quaternions_norm_product_witness :
    vec_norm (concatenate_quaternions ![1, 0, 0, 0] ![1, 0, 0, 0]) =
      vec_norm (![1, 0, 0, 0] : Fin 4 → ℝ) * vec_norm (![1, 0, 0, 0] : Fin 4 → ℝ) ∧
    vec_norm (concatenate_quaternions ![1, 0, 0, 0] ![1, 0, 0, 0]) = 1 :=
  ⟨(concatenate_quaternions_norm_product ![1, 0, 0, 0] ![1, 0, 0, 0]).1,
    (concatenate_quaternions_norm_product ![1, 0, 0, 0] ![1, 0, 0, 0]).2
      (by simp [vec_norm, Fin.sum_univ_four])
      (by simp [vec_norm, Fin.sum_univ_four])⟩

set_option maxHeartbeats 1600000 in
/-- C5: for unit quaternions `q1`, `q2` and any vector `v`, rotating by the
Hamilton product equals rotating by `q2` then by `q1`. -/
theorem quaternion_composition_consistent (q1 q2 : Fin 4 → ℝ) (v : Fin 3 → ℝ)
    (h1 : vec_norm q1 = 1) (h2 : vec_norm q2 = 1) :
    q_prod_vector (concatenate_quaternions q1 q2) v =
      q_prod_vector q1 (q_prod_vector q2 v) := by
  have hn1 : q1 0 ^ 2 + q1 1 ^ 2 + q1 2 ^ 2 + q1 3 ^ 2 = 1 := by
    have h := sum_sq_of_vec_norm_one q1 h1
    rwa [Fin.sum_univ_four] at h
  have hn2 : q2 0 ^ 2 + q2 1 ^ 2 + q2 2 ^ 2 + q2 3 ^ 2 = 1 := by
    have h := sum_sq_of_vec_norm_one q2 h2
    rwa [Fin.sum_univ_four] at h
  funext i
  fin_cases i
  · simp [q_prod_vector, concatenate_quaternions, np_cross, np_dot,
      Fin.sum_univ_three, Matrix.vecHead, Matrix.vecTail]
    linear_combination
      (2*(q2 0)*(q2 2)*(v 2) - 2*(q2 0)*(q2 3)*(v 1) + 2*(q2 1)*(q2 2)*(v 1)
        + 2*(q2 1)*(q2 3)*(v 2) - 2*(q2 2)^2*(v 0) - 2*(q2 3)^2*(v 0)) * hn1 +
      (2*(q1 0)*(q1 2)*(v 2) - 2*(q1 0)*(q1 3)*(v 1) + 2*(q1 1)*(q1 2)*(v 1)
        + 2*(q1 1)*(q1 3)*(v 2) - 2*(q1 2)^2*(v 0) - 2*(q1 3)^2*(v 0)) * hn2
  · simp [q_prod_vector, concatenate_quaternions, np_cross, np_dot,
      Fin.sum_univ_three, Matrix.vecHead, Matrix.vecTail]
    linear_combination
      (-2*(q2 0)*(q2 1)*(v 2) + 2*(q2 0)*(q2 3)*(v 0) - 2*(q2 1)^2*(v 1)
        + 2*(q2 1)*(q2 2)*(v 0) + 2*(q2 2)*(q2 3)*(v 2) - 2*(q2 3)^2*(v 1)) * hn1 +
      (-2*(q1 0)*(q1 1)*(v 2) + 2*(q1 0)*(q1 3)*(v 0) - 2*(q1 1)^2*(v 1)
        + 2*(q1 1)*(q1 2)*(v 0) + 2*(q1 2)*(q1 3)*(v 2) - 2*(q1 3)^2*(v 1)) * hn2
  · simp [q_prod_vector, concatenate_quaternions, np_cross, np_dot,
      Fin.sum_univ_three, Matrix.vecHead, Matrix.vecTail]
    linear_combination
      (2*(q2 0)*(q2 1)*(v 1) - 2*(q2 0)*(q2 2)*(v 0) - 2*(q2 1)^2*(v 2)
        + 2*(q2 1)*(q2 3)*(v 0) - 2*(q2 2)^2*(v 2) + 2*(q2 2)*(q2 3)*(v 1)) * hn1 +
      (2*(q1 0)*(q1 1)*(v 1) - 2*(q1 0)*(q1 2)*(v 0) - 2*(q1 1)^2*(v 2)
        + 2*(q1 1)*(q1 3)*(v 0) - 2*(q1 2)^2*(v 2) + 2*(q1 2)*(q1 3)*(v 1)) * hn2

/-- Witness for C5 at `q1 = q2 = (1,0,0,0)` and `v = (1,2,3)`. -/
theorem quaternion_composition_consistent_witness :
    q_prod_vector (concatenate_quaternions ![1, 0, 0, 0] ![1, 0, 0, 0]) ![1, 2, 3] =
      q_prod_vector ![1, 0, 0, 0] (q_prod_vector ![1, 0, 0, 0] ![1, 2, 3]) :=
  quaternion_composition_consistent ![1, 0, 0, 0] ![1, 0, 0, 0] ![1, 2, 3]
    (by simp [vec_norm, Fin.sum_univ_four])
    (by simp [vec_norm, Fin.sum_univ_four])

/-- C9: whenever the interpolation angle `ω` of the pair has `sin ω ≠ 0`, both
`axis_angle_slerp` and `quaternion_slerp` return `start` at `t = 0` and the
end value at `t = 1`. -/
theorem slerp_boundaries :
    (∀ start goal : Fin 4 → ℝ,
      Real.sin (angle_between_vectors ![start 0, start 1, start 2]
        ![goal 0, goal 1, goal 2] false) ≠ 0 →
      axis_angle_slerp start goal 0 = start ∧
        axis_angle_slerp start goal 1 = goal) ∧
    (∀ start goal : Fin 4 → ℝ,
      Real.sin (angle_between_vectors start goal false) ≠ 0 →
      quaternion_slerp start goal 0 = start ∧
        quaternion_slerp start goal 1 = goal) := by
  constructor
  · intro s g h
    constructor
    · funext i
      fin_cases i <;> simp [axis_angle_slerp, div_self h] <;> ring
    · funext i
      fin_cases i <;> simp [axis_angle_slerp, div_self h] <;> ring
  · intro s g h
    constructor
    · funext i
      simp [quaternion_slerp, div_self h]
    · funext i
      simp [quaternion_slerp, div_self h]

/-- Witness for C9: axis-angle slerp from axis x to axis y at `t = 0`, and
quaternion slerp from `(1,0,0,0)` to `(0,1,0,0)` at `t = 1`. -/
theorem slerp_boundaries_witness :
    axis_angle_slerp ![1, 0, 0, 2] ![0, 1, 0, 1] 0 = ![1, 0, 0, 2] ∧
    quaternion_slerp ![1, 0, 0, 0] ![0, 1, 0, 0] 1 = ![0, 1, 0, 0] := by
  constructor
  · refine (slerp_boundaries.1 ![1, 0, 0, 2] ![0, 1, 0, 1] ?_).1
    show Real.sin (angle_between_vectors (![1, 0, 0] : Fin 3 → ℝ) ![0, 1, 0] false) ≠ 0
    have hab : angle_between_vectors (![1, 0, 0] : Fin 3 → ℝ) ![0, 1, 0] false =
        Real.pi / 2 := by
      rw [show angle_between_vectors (![1, 0, 0] : Fin 3 → ℝ) ![0, 1, 0] false =
        np_arctan2 (vec_norm (np_cross ![1, 0, 0] ![0, 1, 0]))
          (np_dot ![1, 0, 0] ![0, 1, 0]) from rfl]
      have hcross : np_cross (![1, 0, 0] : Fin 3 → ℝ) ![0, 1, 0] = ![0, 0, 1] := by
        funext i
        fin_cases i <;> norm_num [np_cross]
      rw [hcross]
      have hnorm : vec_norm (![0, 0, 1] : Fin 3 → ℝ) = 1 := by
        simp [vec_norm, Fin.sum_univ_three]
      have hdot : np_dot (![1, 0, 0] : Fin 3 → ℝ) ![0, 1, 0] = 0 := by
        simp [np_dot, Fin.sum_univ_three]
      rw [hnorm, hdot]
      show Complex.arg ⟨0, 1⟩ = Real.pi / 2
      exact Complex.arg_I
    rw [hab, Real.sin_pi_div_two]
    exact one_ne_zero
  · refine (slerp_boundaries.2 ![1, 0, 0, 0] ![0, 1, 0, 0] ?_).2
    have hab : angle_between_vectors (![1, 0, 0, 0] : Fin 4 → ℝ) ![0, 1, 0, 0] false =
        Real.pi / 2 := by
      rw [show angle_between_vectors (![1, 0, 0, 0] : Fin 4 → ℝ) ![0, 1, 0, 0] false =
        Real.arccos (np_dot ![1, 0, 0, 0] ![0, 1, 0, 0] /
          (vec_norm ![1, 0, 0, 0] * vec_norm ![0, 1, 0, 0])) from rfl]
      have hdot : np_dot (![1, 0, 0, 0] : Fin 4 → ℝ) ![0, 1, 0, 0] = 0 := by
        simp [np_dot, Fin.sum_univ_four]
      have hn1 : vec_norm (![1, 0, 0, 0] : Fin 4 → ℝ) = 1 := by
        simp [vec_norm, Fin.sum_univ_four]
      have hn2 : vec_norm (![0, 1, 0, 0] : Fin 4 → ℝ) = 1 := by
        simp [vec_norm, Fin.sum_univ_four]
      rw [hdot, hn1, hn2]
      norm_num [Real.arccos_zero]
    rw [hab, Real.sin_pi_div_two]
    exact one_ne_zero

/-- C6 counterexample: the unit quaternion `(0, 1, 0, 0)` has `w = 0 ≥ 0`, yet
`quaternion_from_matrix (matrix_from_quaternion q)` is the zero 4-vector
(the formula divides by `w = 0`), which is neither `q` nor `-q`. -/
theorem quaternion_matrix_roundtrip_cex :
    vec_norm ![(0:ℝ), 1, 0, 0] = 1 ∧ (0:ℝ) ≤ (![(0:ℝ), 1, 0, 0]) 0 ∧
    ¬ (quaternion_from_matrix (matrix_from_quaternion ![0, 1, 0, 0]) = ![0, 1, 0, 0] ∨
       quaternion_from_matrix (matrix_from_quaternion ![0, 1, 0, 0]) = -![0, 1, 0, 0]) := by
  have hu : vec_norm ![(0:ℝ), 1, 0, 0] = 1 := by
    simp [vec_norm, Fin.sum_univ_four]
  have hM : matrix_from_quaternion ![0, 1, 0, 0] = !![1, 0, 0; 0, -1, 0; 0, 0, -1] := by
    simp only [matrix_from_quaternion, norm_vector_of_norm_one _ hu]
    ext i j
    fin_cases i <;> fin_cases j <;> norm_num [Matrix.vecHead, Matrix.vecTail]
  have hres : quaternion_from_matrix (matrix_from_quaternion ![0, 1, 0, 0]) =
      ![0, 0, 0, 0] := by
    funext i
    fin_cases i <;>
      simp [quaternion_from_matrix, hM, Matrix.trace_fin_three, Matrix.vecHead,
        Matrix.vecTail]
  refine ⟨hu, by norm_num, ?_⟩
  rw [hres]
  rintro (hcontra | hcontra) <;> {
    have hc1 := congrFun hcontra 1
    norm_num [Pi.neg_apply] at hc1 }

/-- C6 (amended: `w > 0` instead of `w ≥ 0`): for every unit quaternion with
positive real part, converting to a matrix and back recovers the quaternion
up to the double-cover sign (in fact exactly). -/
theorem quaternion_matrix_roundtrip (q : Fin 4 → ℝ)
    (hq : vec_norm q = 1) (hw : 0 < q 0) :
    quaternion_from_matrix (matrix_from_quaternion q) = q ∨
    quaternion_from_matrix (matrix_from_quaternion q) = -q := by
  have hn : q 0 ^ 2 + q 1 ^ 2 + q 2 ^ 2 + q 3 ^ 2 = 1 := by
    have h := sum_sq_of_vec_norm_one q hq
    rwa [Fin.sum_univ_four] at h
  have h0 : q 0 ≠ 0 := ne_of_gt hw
  have huq : norm_vector q = q := norm_vector_of_norm_one q hq
  have hM : matrix_from_quaternion q =
      !![1 - 2*(q 2)*(q 2) - 2*(q 3)*(q 3), 2*(q 1)*(q 2) - 2*(q 3)*(q 0),
           2*(q 1)*(q 3) + 2*(q 2)*(q 0);
         2*(q 1)*(q 2) + 2*(q 3)*(q 0), 1 - 2*(q 1)*(q 1) - 2*(q 3)*(q 3),
           2*(q 2)*(q 3) - 2*(q 1)*(q 0);
         2*(q 1)*(q 3) - 2*(q 2)*(q 0), 2*(q 2)*(q 3) + 2*(q 1)*(q 0),
           1 - 2*(q 1)*(q 1) - 2*(q 2)*(q 2)] := by
    simp only [matrix_from_quaternion, huq]
  have htr : Matrix.trace (matrix_from_quaternion q) = 4 * q 0 ^ 2 - 1 := by
    rw [hM, Matrix.trace_fin_three]
    simp [Matrix.vecHead, Matrix.vecTail]
    linear_combination (-4) * hn
  have hsq : Real.sqrt (1 + Matrix.trace (matrix_from_quaternion q)) = 2 * q 0 := by
    rw [htr, show (1:ℝ) + (4 * q 0 ^ 2 - 1) = (2 * q 0) ^ 2 by ring,
      Real.sqrt_sq (by positivity)]
  refine Or.inl (funext fun i => ?_)
  fin_cases i
  · show 0.5 * Real.sqrt (1 + Matrix.trace (matrix_from_quaternion q)) = q 0
    rw [hsq]
    ring
  · show 0.25 / (0.5 * Real.sqrt (1 + Matrix.trace (matrix_from_quaternion q))) *
        (matrix_from_quaternion q 2 1 - matrix_from_quaternion q 1 2) = q 1
    rw [hsq, hM]
    simp [Matrix.vecHead, Matrix.vecTail]
    field_simp
    ring
  · show 0.25 / (0.5 * Real.sqrt (1 + Matrix.trace (matrix_from_quaternion q))) *
        (matrix_from_quaternion q 0 2 - matrix_from_quaternion q 2 0) = q 2
    rw [hsq, hM]
    simp [Matrix.vecHead, Matrix.vecTail]
    field_simp
    ring
  · show 0.25 / (0.5 * Real.sqrt (1 + Matrix.trace (matrix_from_quaternion q))) *
        (matrix_from_quaternion q 1 0 - matrix_from_quaternion q 0 1) = q 3
    rw [hsq, hM]
    simp [Matrix.vecHead, Matrix.vecTail]
    field_simp
    ring

/-- Witness for the amended C6 at the unit quaternion `(3/5, 4/5, 0, 0)`. -/
theorem quaternion_matrix_roundtrip_witness :
    quaternion_from_matrix (matrix_from_quaternion ![3/5, 4/5, 0, 0]) =
      ![3/5, 4/5, 0, 0] ∨
    quaternion_from_matrix (matrix_from_quaternion ![3/5, 4/5, 0, 0]) =
      -![3/5, 4/5, 0, 0] :=
  quaternion_matrix_roundtrip ![3/5, 4/5, 0, 0]
    (by
      have : ((3:ℝ)/5) ^ 2 + (4/5) ^ 2 + 0 ^ 2 + 0 ^ 2 = 1 := by norm_num
      simp [vec_norm, Fin.sum_univ_four]
      norm_num)
    (by norm_num)

end Pytransform
